import Mathlib

/-!
Shallow embedding of `dashboard.py` (the state/broadcast hub of the
Polymarket arbitrage bot dashboard) and proofs about it.

The embedding mirrors `DashboardState`: the subscriber registry with its
non-blocking fan-out (`subscribe` / `unsubscribe` / `_send_event`), the
rolling log buffer (`add_log` / `get_logs`), the snapshot copy
(`to_dict`), the SSE framing of `DashboardHandler._serve_sse`, and the
swallow-all log adapter `DashboardLogHandler.emit`.  Python mutable-object
identity (queue objects, the lists and dicts shared through `to_dict`)
is made explicit where a property depends on it.
-/

namespace Dashboard

/-- Queue capacity of every SSE subscriber: `queue.Queue(maxsize=50)`
in `DashboardState.subscribe`. -/
def qMaxsize : Nat := 50

/-- One SSE subscriber: a bounded FIFO queue.  `id` models the Python
object identity of the `queue.Queue` (membership tests and `list.remove`
compare `Queue` objects by identity); `q` holds the undrained messages,
oldest first. -/
structure Sub (ε : Type) where
  id : Nat
  q : List ε
deriving Repr, DecidableEq

/-- The subscriber registry of `DashboardState`: the `_subscribers` list
plus the allocator counter that hands out fresh object identities in
`subscribe`. -/
structure Hub (ε : Type) where
  subs : List (Sub ε)
  nextId : Nat
deriving Repr, DecidableEq

variable {ε : Type}

/-- The loop of `DashboardState._send_event`: attempts
`q.put_nowait(msg)` on every registered subscriber in order
(`put_nowait` succeeds exactly when the queue holds fewer than `maxsize`
items), returning the registry with the successful queues extended and
the identities of the queues that raised `queue.Full`, in iteration
order (the `dead` list). -/
def sendEventLoop (e : ε) : List (Sub ε) → List (Sub ε) × List Nat
  | [] => ([], [])
  | s :: rest =>
    let p := sendEventLoop e rest
    if s.q.length < qMaxsize then
      (⟨s.id, s.q ++ [e]⟩ :: p.1, p.2)
    else
      (s :: p.1, s.id :: p.2)

/-- Python `self._subscribers.remove(q)`: removes the first element
identical to `q`. -/
def removeById (l : List (Sub ε)) (i : Nat) : List (Sub ε) :=
  l.eraseP (fun s => s.id == i)

/-- Embeds `DashboardState._send_event`: non-blocking fan-out of one message;
the subscribers collected in `dead` are then removed from the registry
within the same call. -/
def sendEvent (h : Hub ε) (e : ε) : Hub ε :=
  let p := sendEventLoop e h.subs
  ⟨p.2.foldl removeById p.1, h.nextId⟩

/-- Embeds `DashboardState.subscribe`: a fresh bounded queue is created,
appended to the registry and returned. -/
def subscribe (h : Hub ε) : Sub ε × Hub ε :=
  (⟨h.nextId, []⟩, ⟨h.subs ++ [⟨h.nextId, []⟩], h.nextId + 1⟩)

/-- Embeds `DashboardState.unsubscribe`:
`if q in self._subscribers: self._subscribers.remove(q)`. -/
def unsubscribe (h : Hub ε) (i : Nat) : Hub ε :=
  if h.subs.any (fun s => s.id == i) then
    ⟨h.subs.eraseP (fun s => s.id == i), h.nextId⟩
  else h

/-- The identities of the currently registered subscriber queues. -/
def ids (h : Hub ε) : List Nat := h.subs.map Sub.id

/-- How `_send_event` treats a single subscriber: delivery when the
queue has room, `none` (dropped) when it is full. -/
def deliver (e : ε) (s : Sub ε) : Option (Sub ε) :=
  if s.q.length < qMaxsize then some ⟨s.id, s.q ++ [e]⟩ else none

theorem sendEventLoop_fst (e : ε) (l : List (Sub ε)) :
    (sendEventLoop e l).1
      = l.map (fun s => if s.q.length < qMaxsize then ⟨s.id, s.q ++ [e]⟩ else s) := by
  induction l with
  | nil => rfl
  | cons s rest ih =>
    simp only [sendEventLoop, List.map_cons]
    by_cases hs : s.q.length < qMaxsize <;> simp [hs, ih]

theorem sendEventLoop_snd (e : ε) (l : List (Sub ε)) :
    (sendEventLoop e l).2
      = (l.filter (fun s => !(s.q.length < qMaxsize : Bool))).map Sub.id := by
  induction l with
  | nil => rfl
  | cons s rest ih =>
    simp only [sendEventLoop]
    by_cases hs : s.q.length < qMaxsize <;> simp [hs, ih]

theorem foldl_removeById_cons (s : Sub ε) (l : List (Sub ε)) (ds : List Nat)
    (hs : s.id ∉ ds) :
    ds.foldl removeById (s :: l) = s :: ds.foldl removeById l := by
  induction ds generalizing l with
  | nil => rfl
  | cons d ds ih =>
    have hne : s.id ≠ d := fun h => hs (h ▸ List.mem_cons_self d ds)
    have h1 : removeById (s :: l) d = s :: removeById l d := by
      simp [removeById, List.eraseP_cons, hne]
    simp only [List.foldl_cons, h1]
    exact ih (removeById l d) (fun h => hs (List.mem_cons_of_mem d h))

theorem foldl_removeById_filterMap (e : ε) (l : List (Sub ε))
    (hnd : (l.map Sub.id).Nodup) :
    ((l.filter (fun t => !(t.q.length < qMaxsize : Bool))).map Sub.id).foldl removeById
        (l.map (fun s => if s.q.length < qMaxsize then ⟨s.id, s.q ++ [e]⟩ else s))
      = l.filterMap (deliver e) := by
  induction l with
  | nil => rfl
  | cons s rest ih =>
    simp only [List.map_cons, List.nodup_cons] at hnd
    obtain ⟨hsid, hndrest⟩ := hnd
    by_cases hs : s.q.length < qMaxsize
    · have hfil : (s :: rest).filter (fun t => !(t.q.length < qMaxsize : Bool))
          = rest.filter (fun t => !(t.q.length < qMaxsize : Bool)) := by
        simp [List.filter_cons, hs]
      have hdead : s.id ∉ (rest.filter (fun t => !(t.q.length < qMaxsize : Bool))).map Sub.id := by
        intro hmem
        rcases List.mem_map.1 hmem with ⟨t, ht, hteq⟩
        exact hsid (hteq ▸ List.mem_map_of_mem Sub.id (List.mem_of_mem_filter ht))
      rw [hfil, List.map_cons, if_pos hs]
      rw [foldl_removeById_cons ⟨s.id, s.q ++ [e]⟩ _ _ hdead, ih hndrest]
      simp [List.filterMap_cons, deliver, hs]
    · have hfil : (s :: rest).filter (fun t => !(t.q.length < qMaxsize : Bool))
          = s :: rest.filter (fun t => !(t.q.length < qMaxsize : Bool)) := by
        simp [List.filter_cons, hs]
      rw [hfil, List.map_cons, List.map_cons, if_neg hs, List.foldl_cons]
      have hrm : removeById
          (s :: rest.map (fun t => if t.q.length < qMaxsize then ⟨t.id, t.q ++ [e]⟩ else t))
          s.id
          = rest.map (fun t => if t.q.length < qMaxsize then ⟨t.id, t.q ++ [e]⟩ else t) := by
        simp [removeById, List.eraseP_cons]
      rw [hrm, ih hndrest]
      simp [List.filterMap_cons, deliver, hs]

/-- Under distinct queue identities, `_send_event` keeps exactly the
subscribers with room (their queue extended by the message) and removes
exactly the full ones. -/
theorem sendEvent_subs (h : Hub ε) (e : ε) (hnd : (ids h).Nodup) :
    (sendEvent h e).subs = h.subs.filterMap (deliver e) := by
  show (sendEventLoop e h.subs).2.foldl removeById (sendEventLoop e h.subs).1
      = h.subs.filterMap (deliver e)
  rw [sendEventLoop_fst, sendEventLoop_snd]
  exact foldl_removeById_filterMap e h.subs hnd

theorem foldl_removeById_sublist (ds : List Nat) (l : List (Sub ε)) :
    (ds.foldl removeById l).Sublist l := by
  induction ds generalizing l with
  | nil => exact List.Sublist.refl l
  | cons d ds ih => exact (ih (removeById l d)).trans (List.eraseP_sublist l)

theorem ids_sendEventLoop_fst (e : ε) (h : Hub ε) :
    (sendEventLoop e h.subs).1.map Sub.id = ids h := by
  rw [sendEventLoop_fst]
  unfold ids
  rw [List.map_map]
  apply List.map_congr_left
  intro s _
  by_cases hs : s.q.length < qMaxsize <;> simp [hs]

theorem ids_sendEvent_sublist (h : Hub ε) (e : ε) :
    (ids (sendEvent h e)).Sublist (ids h) := by
  show (((sendEventLoop e h.subs).2.foldl removeById (sendEventLoop e h.subs).1).map Sub.id).Sublist
      (ids h)
  rw [← ids_sendEventLoop_fst e h]
  exact (foldl_removeById_sublist _ _).map Sub.id

theorem not_mem_ids_eraseP (l : List (Sub ε)) (i : Nat)
    (hnd : (l.map Sub.id).Nodup) :
    i ∉ (l.eraseP (fun s => s.id == i)).map Sub.id := by
  induction l with
  | nil => simp
  | cons s rest ih =>
    simp only [List.map_cons, List.nodup_cons] at hnd
    obtain ⟨hsid, hndrest⟩ := hnd
    by_cases hsi : s.id = i
    · rw [List.eraseP_cons_of_pos (by simp [hsi])]
      exact fun hmem => hsid (hsi ▸ hmem)
    · rw [List.eraseP_cons_of_neg (by simp [hsi])]
      simp only [List.map_cons, List.mem_cons]
      rintro (rfl | hmem)
      · exact hsi rfl
      · exact ih hndrest hmem

/-- Claim C2: `_send_event` attempts a non-blocking enqueue to every
currently registered subscriber; within that same call it removes exactly
the subscribers whose queue is full (they do not receive the message),
every other registered subscriber has the message appended to its queue,
and nothing else is in the registry afterwards.  (Non-blocking behaviour
is embedded in `put_nowait`: a full queue yields failure, never a wait.) -/
theorem sendEvent_delivers_except_full (h : Hub ε) (e : ε)
    (hnd : (ids h).Nodup) :
    (∀ s ∈ h.subs, s.q.length < qMaxsize →
        (⟨s.id, s.q ++ [e]⟩ : Sub ε) ∈ (sendEvent h e).subs)
    ∧ (∀ s ∈ h.subs, qMaxsize ≤ s.q.length → s.id ∉ ids (sendEvent h e))
    ∧ (∀ t ∈ (sendEvent h e).subs, ∃ s ∈ h.subs,
        s.q.length < qMaxsize ∧ t = ⟨s.id, s.q ++ [e]⟩) := by
  have hsubs := sendEvent_subs h e hnd
  refine ⟨?_, ?_, ?_⟩
  · intro s hs hlt
    rw [hsubs]
    exact List.mem_filterMap.2 ⟨s, hs, by simp [deliver, hlt]⟩
  · intro s hs hge hmem
    unfold ids at hmem
    rw [hsubs] at hmem
    rcases List.mem_map.1 hmem with ⟨t, ht, hteq⟩
    rcases List.mem_filterMap.1 ht with ⟨s', hs', hdel⟩
    unfold deliver at hdel
    by_cases hlt : s'.q.length < qMaxsize
    · rw [if_pos hlt] at hdel
      have hid : s'.id = s.id := by
        have := hdel
        cases this
        exact hteq
      have := List.inj_on_of_nodup_map hnd hs' hs hid
      subst this
      omega
    · rw [if_neg hlt] at hdel
      cases hdel
  · intro t ht
    rw [hsubs] at ht
    rcases List.mem_filterMap.1 ht with ⟨s, hs, hdel⟩
    unfold deliver at hdel
    by_cases hlt : s.q.length < qMaxsize
    · rw [if_pos hlt] at hdel
      cases hdel
      exact ⟨s, hs, hlt, rfl⟩
    · rw [if_neg hlt] at hdel
      cases hdel

/-- Concrete instance for `sendEvent_delivers_except_full`: one
subscriber with room, one with a full queue. -/
theorem sendEvent_delivers_except_full_witness :
    (∀ s ∈ (Hub.mk [⟨0, []⟩, ⟨1, List.replicate 50 ("log", "x")⟩] 2 : Hub (String × String)).subs,
        s.q.length < qMaxsize →
        (⟨s.id, s.q ++ [("state", "snap")]⟩ : Sub (String × String)) ∈
          (sendEvent (Hub.mk [⟨0, []⟩, ⟨1, List.replicate 50 ("log", "x")⟩] 2) ("state", "snap")).subs)
    ∧ (∀ s ∈ (Hub.mk [⟨0, []⟩, ⟨1, List.replicate 50 ("log", "x")⟩] 2 : Hub (String × String)).subs,
        qMaxsize ≤ s.q.length →
        s.id ∉ ids (sendEvent (Hub.mk [⟨0, []⟩, ⟨1, List.replicate 50 ("log", "x")⟩] 2) ("state", "snap")))
    ∧ (∀ t ∈ (sendEvent (Hub.mk [⟨0, []⟩, ⟨1, List.replicate 50 ("log", "x")⟩] 2 : Hub (String × String)) ("state", "snap")).subs,
        ∃ s ∈ (Hub.mk [⟨0, []⟩, ⟨1, List.replicate 50 ("log", "x")⟩] 2 : Hub (String × String)).subs,
        s.q.length < qMaxsize ∧ t = ⟨s.id, s.q ++ [("state", "snap")]⟩) :=
  sendEvent_delivers_except_full
    (Hub.mk [⟨0, []⟩, ⟨1, List.replicate 50 ("log", "x")⟩] 2) ("state", "snap") (by decide)

/-- Claim C7: `unsubscribe` removes the handle from the registry if
present, is idempotent, is a no-op on a never-registered handle, and
after it the registry holds no reference to the handle and a subsequent
`_send_event` delivers nothing to it. -/
theorem unsubscribe_spec (h : Hub ε) (i : Nat) (e : ε)
    (hnd : (ids h).Nodup) :
    i ∉ ids (unsubscribe h i)
    ∧ unsubscribe (unsubscribe h i) i = unsubscribe h i
    ∧ (i ∉ ids h → unsubscribe h i = h)
    ∧ i ∉ ids (sendEvent (unsubscribe h i) e) := by
  have hnoop : ∀ h' : Hub ε, i ∉ ids h' → unsubscribe h' i = h' := by
    intro h' hni
    unfold unsubscribe
    rw [if_neg]
    simp only [List.any_eq_true, beq_iff_eq, not_exists]
    intro s hs
    exact hni (hs.2 ▸ List.mem_map_of_mem Sub.id hs.1)
  have h1 : i ∉ ids (unsubscribe h i) := by
    unfold unsubscribe
    by_cases hc : h.subs.any (fun s => s.id == i) = true
    · rw [if_pos hc]
      exact not_mem_ids_eraseP h.subs i hnd
    · rw [if_neg hc]
      simp only [List.any_eq_true, beq_iff_eq, not_exists] at hc
      intro hmem
      rcases List.mem_map.1 hmem with ⟨s, hs, hsi⟩
      exact hc s ⟨hs, hsi⟩
  refine ⟨h1, hnoop _ h1, hnoop h, fun hmem => ?_⟩
  exact h1 ((ids_sendEvent_sublist (unsubscribe h i) e).subset hmem)

/-- Concrete instance for `unsubscribe_spec`. -/
theorem unsubscribe_spec_witness :
    0 ∉ ids (unsubscribe (Hub.mk [⟨0, []⟩, ⟨1, []⟩] 2 : Hub (String × String)) 0)
    ∧ unsubscribe (unsubscribe (Hub.mk [⟨0, []⟩, ⟨1, []⟩] 2 : Hub (String × String)) 0) 0
        = unsubscribe (Hub.mk [⟨0, []⟩, ⟨1, []⟩] 2) 0
    ∧ (0 ∉ ids (Hub.mk [⟨0, []⟩, ⟨1, []⟩] 2 : Hub (String × String)) →
        unsubscribe (Hub.mk [⟨0, []⟩, ⟨1, []⟩] 2 : Hub (String × String)) 0
          = Hub.mk [⟨0, []⟩, ⟨1, []⟩] 2)
    ∧ 0 ∉ ids (sendEvent (unsubscribe (Hub.mk [⟨0, []⟩, ⟨1, []⟩] 2 : Hub (String × String)) 0)
        ("log", "line")) :=
  unsubscribe_spec (Hub.mk [⟨0, []⟩, ⟨1, []⟩] 2) 0 ("log", "line") (by decide)

/-- A scalar Python value, as stored inside the nested position / plan /
config dicts. -/
inductive Val
  | pstr (s : String)
  | pint (n : Int)
  | pfloat (x : Rat)
  | pnone
deriving Repr, DecidableEq

/-- A Python dict of scalars (one position entry, the `last_plan` dict
or the `config` dict), as an insertion-ordered association list. -/
abbrev PyDict := List (String × Val)

/-- The store of mutable Python objects shared between the bot and the
dashboard: `lists a` is the current contents of the list object with
identity `a` (the `positions` list), `dicts a` of the dict object with
identity `a` (the `last_plan` and `config` dicts). -/
structure Heap where
  lists : Nat → List PyDict
  dicts : Nat → PyDict

/-- The `DashboardState` dataclass.  Scalar fields are held by value
(Python strings, ints and floats are immutable); `config`, `last_plan`
and `positions` hold the identity of a mutable dict / list object in
the `Heap`.  Floats are modelled as rationals — the module never
computes with them, it only stores and copies them.  `log_lines`,
`max_log_lines` and the subscriber registry mirror the remaining
fields; the lock serialises access and has no value-level content. -/
structure DashboardState where
  config : Nat
  status : String := "starting"
  current_market : String := ""
  market_asset : String := ""
  market_duration : String := ""
  market_ends : String := ""
  markets_found : Int := 0
  windows_scanned : Int := 0
  up_best_ask : Rat := 0
  up_best_bid : Rat := 0
  down_best_ask : Rat := 0
  down_best_bid : Rat := 0
  combined_ask : Rat := 0
  up_depth : Rat := 0
  down_depth : Rat := 0
  fee_bps : Int := 0
  bankroll : Rat := 0
  deployed : Rat := 0
  available : Rat := 0
  realized_pnl : Rat := 0
  daily_spent : Rat := 0
  exchange_balance : Option Rat := Option.none
  opportunities_seen : Int := 0
  opportunities_traded : Int := 0
  last_plan : Option Nat := Option.none
  fill_rate : String := ""
  api_stats : String := ""
  positions : Nat
  log_lines : List String := []
  max_log_lines : Nat := 500
  hub : Hub (String × String) := ⟨[], 0⟩

/-- The dict literal built by `DashboardState.to_dict`: a fresh
top-level mapping.  Scalar entries are the (immutable) field values;
the `last_plan`, `positions` and `config` entries are the very object
references held by the state — Python copies the reference, not the
object. -/
structure SnapshotDict where
  status : String
  current_market : String
  market_asset : String
  market_duration : String
  market_ends : String
  markets_found : Int
  windows_scanned : Int
  up_best_ask : Rat
  up_best_bid : Rat
  down_best_ask : Rat
  down_best_bid : Rat
  combined_ask : Rat
  up_depth : Rat
  down_depth : Rat
  fee_bps : Int
  bankroll : Rat
  deployed : Rat
  available : Rat
  realized_pnl : Rat
  daily_spent : Rat
  exchange_balance : Option Rat
  opportunities_seen : Int
  opportunities_traded : Int
  last_plan : Option Nat
  fill_rate : String
  api_stats : String
  positions : Nat
  config : Nat
deriving Repr, DecidableEq

/-- Embeds `DashboardState.to_dict`. -/
def DashboardState.to_dict (s : DashboardState) : SnapshotDict :=
  { status := s.status
    current_market := s.current_market
    market_asset := s.market_asset
    market_duration := s.market_duration
    market_ends := s.market_ends
    markets_found := s.markets_found
    windows_scanned := s.windows_scanned
    up_best_ask := s.up_best_ask
    up_best_bid := s.up_best_bid
    down_best_ask := s.down_best_ask
    down_best_bid := s.down_best_bid
    combined_ask := s.combined_ask
    up_depth := s.up_depth
    down_depth := s.down_depth
    fee_bps := s.fee_bps
    bankroll := s.bankroll
    deployed := s.deployed
    available := s.available
    realized_pnl := s.realized_pnl
    daily_spent := s.daily_spent
    exchange_balance := s.exchange_balance
    opportunities_seen := s.opportunities_seen
    opportunities_traded := s.opportunities_traded
    last_plan := s.last_plan
    fill_rate := s.fill_rate
    api_stats := s.api_stats
    positions := s.positions
    config := s.config }

/-- What a reader of the returned dict (`json.dumps`, the SSE client)
observes in a given heap: object references are replaced by the
referenced objects' current contents. -/
structure RenderedSnapshot where
  status : String
  current_market : String
  market_asset : String
  market_duration : String
  market_ends : String
  markets_found : Int
  windows_scanned : Int
  up_best_ask : Rat
  up_best_bid : Rat
  down_best_ask : Rat
  down_best_bid : Rat
  combined_ask : Rat
  up_depth : Rat
  down_depth : Rat
  fee_bps : Int
  bankroll : Rat
  deployed : Rat
  available : Rat
  realized_pnl : Rat
  daily_spent : Rat
  exchange_balance : Option Rat
  opportunities_seen : Int
  opportunities_traded : Int
  last_plan : Option PyDict
  fill_rate : String
  api_stats : String
  positions : List PyDict
  config : PyDict
deriving Repr, DecidableEq

/-- Dereference the three object-valued entries of a snapshot dict. -/
def render (d : SnapshotDict) (h : Heap) : RenderedSnapshot :=
  { status := d.status
    current_market := d.current_market
    market_asset := d.market_asset
    market_duration := d.market_duration
    market_ends := d.market_ends
    markets_found := d.markets_found
    windows_scanned := d.windows_scanned
    up_best_ask := d.up_best_ask
    up_best_bid := d.up_best_bid
    down_best_ask := d.down_best_ask
    down_best_bid := d.down_best_bid
    combined_ask := d.combined_ask
    up_depth := d.up_depth
    down_depth := d.down_depth
    fee_bps := d.fee_bps
    bankroll := d.bankroll
    deployed := d.deployed
    available := d.available
    realized_pnl := d.realized_pnl
    daily_spent := d.daily_spent
    exchange_balance := d.exchange_balance
    opportunities_seen := d.opportunities_seen
    opportunities_traded := d.opportunities_traded
    last_plan := d.last_plan.map h.dicts
    fill_rate := d.fill_rate
    api_stats := d.api_stats
    positions := h.lists d.positions
    config := h.dicts d.config }

/-- The global `state = DashboardState()` instance; the fresh empty
`config` dict and `positions` list created by the dataclass default
factories are given object identities `0` and `1`. -/
def state0 : DashboardState := { config := 0, positions := 1 }

/-- An empty heap: every list object is `[]`, every dict object `[]`. -/
def heap0 : Heap := ⟨fun _ => [], fun _ => []⟩

/-- `heap0` after an in-place mutation of the `positions` list object
(identity `1`), e.g. `state.positions.append({...})` by the bot. -/
def heap1 : Heap :=
  ⟨fun a => if a = 1 then [[("market_title", Val.pstr "m")]] else [], fun _ => []⟩

/-- Claim C3 fails on the code: `to_dict` copies only the top level, so
an in-place mutation of the `positions` list object changes what a
previously returned snapshot shows. -/
theorem to_dict_not_deep_copy :
    render state0.to_dict heap0 ≠ render state0.to_dict heap1 := by
  intro h
  have := congrArg RenderedSnapshot.positions h
  simp [render, DashboardState.to_dict, state0, heap0, heap1] at this

/-- Claim C3 (amended): `to_dict` returns a fresh top-level dict whose
scalar entries are immutable values fixed at call time (in this pure
embedding a previously returned `SnapshotDict` is by construction
untouched by later field reassignments on the state), but its
`positions`, `last_plan` and `config` entries alias the state's current
objects: the rendered content of a previously returned snapshot depends
only on those three referenced heap cells — it is unchanged by any heap
change that leaves them alone, while in-place mutation of one of them
is visible through the snapshot (`to_dict_not_deep_copy`). -/
theorem to_dict_shallow_copy (s : DashboardState) (h h' : Heap)
    (hpos : h.lists s.positions = h'.lists s.positions)
    (hcfg : h.dicts s.config = h'.dicts s.config)
    (hplan : ∀ p, s.last_plan = some p → h.dicts p = h'.dicts p) :
    render s.to_dict h = render s.to_dict h' := by
  unfold render DashboardState.to_dict
  simp only [hpos, hcfg]
  congr 1
  cases hlp : s.last_plan with
  | none => simp
  | some p => simp [hplan p hlp]

/-- Concrete instance for `to_dict_shallow_copy`: a heap change away
from the referenced objects leaves the rendered snapshot unchanged. -/
theorem to_dict_shallow_copy_witness :
    render state0.to_dict heap0
      = render state0.to_dict
          ⟨fun a => if a = 7 then [[("x", Val.pint 1)]] else [], fun _ => []⟩ :=
  to_dict_shallow_copy state0 heap0
    ⟨fun a => if a = 7 then [[("x", Val.pint 1)]] else [], fun _ => []⟩
    (by decide) rfl (fun p hp => Option.noConfusion hp)

/-- Python list slice `xs[-n:]` for a natural `n`, as used in `get_logs`
and `add_log`: for `n = 0` the slice start `-0` is `0`, so the whole
list is returned; for `n > 0` it is the last `min n xs.length`
elements. -/
def pySliceLast (xs : List α) (n : Nat) : List α :=
  if n = 0 then xs else xs.drop (xs.length - n)

/-- Embeds `DashboardState.get_logs`:
`return list(self._log_lines[-last_n:])`.  The `list(...)` copy is the
identity at value level; object freshness is treated in the store-level
model `getLogsAlloc` below. -/
def DashboardState.get_logs (s : DashboardState) (last_n : Nat) : List String :=
  pySliceLast s.log_lines last_n

/-- Embeds `DashboardState.add_log`: appends the line, trims the buffer
to the last `_max_log_lines` entries when the bound is exceeded, then
publishes a `("log", line)` message to every subscriber. -/
def DashboardState.add_log (s : DashboardState) (line : String) : DashboardState :=
  let ls := s.log_lines ++ [line]
  let ls := if ls.length > s.max_log_lines then pySliceLast ls s.max_log_lines else ls
  { s with log_lines := ls, hub := sendEvent s.hub ("log", line) }

/-- Claim C4 fails on the code at `n = 0`: the slice
`self._log_lines[-0:]` is the whole buffer, not the empty sequence. -/
theorem get_logs_zero_counterexample :
    ({ state0 with log_lines := ["window 1"] } : DashboardState).get_logs 0 ≠ [] := by
  decide

/-- Claim C4 (amended): for `n ≥ 1`, `get_logs` returns exactly the
last `min n (buffer length)` lines, oldest first — a suffix of the
buffer of that length; for `n = 0` it returns the entire buffer
(`get_logs_zero_counterexample`), not the empty sequence. -/
theorem get_logs_last_min (s : DashboardState) (n : Nat) :
    (0 < n →
      (s.get_logs n).length = min n s.log_lines.length
        ∧ ∃ pre, s.log_lines = pre ++ s.get_logs n)
    ∧ (n = 0 → s.get_logs n = s.log_lines) := by
  constructor
  · intro hn
    unfold DashboardState.get_logs pySliceLast
    rw [if_neg (Nat.pos_iff_ne_zero.1 hn)]
    constructor
    · rw [List.length_drop]
      omega
    · exact ⟨s.log_lines.take (s.log_lines.length - n),
        (List.take_append_drop _ _).symm⟩
  · intro hn
    unfold DashboardState.get_logs pySliceLast
    rw [if_pos hn]

/-- Concrete instance for `get_logs_last_min`. -/
theorem get_logs_last_min_witness :
    (({ state0 with log_lines := ["a", "b", "c"] } : DashboardState).get_logs 2).length
        = min 2 ({ state0 with log_lines := ["a", "b", "c"] } : DashboardState).log_lines.length
      ∧ (∃ pre, ({ state0 with log_lines := ["a", "b", "c"] } : DashboardState).log_lines
          = pre ++ ({ state0 with log_lines := ["a", "b", "c"] } : DashboardState).get_logs 2)
      ∧ ({ state0 with log_lines := ["a", "b", "c"] } : DashboardState).get_logs 0
          = ({ state0 with log_lines := ["a", "b", "c"] } : DashboardState).log_lines := by
  refine ⟨?_, ?_, ?_⟩
  · exact ((get_logs_last_min { state0 with log_lines := ["a", "b", "c"] } 2).1 (by decide)).1
  · exact ((get_logs_last_min { state0 with log_lines := ["a", "b", "c"] } 2).1 (by decide)).2
  · exact (get_logs_last_min { state0 with log_lines := ["a", "b", "c"] } 0).2 rfl

/-- The last `m` elements of a list (all of it when shorter). -/
def takeLast (xs : List α) (m : Nat) : List α :=
  xs.drop (xs.length - m)

theorem takeLast_append_left (pre zs : List α) (m : Nat) (h : m ≤ zs.length) :
    takeLast (pre ++ zs) m = takeLast zs m := by
  unfold takeLast
  have hlen : (pre ++ zs).length - m = pre.length + (zs.length - m) := by
    rw [List.length_append]
    omega
  rw [hlen, List.drop_append]

theorem takeLast_of_le (xs : List α) (m : Nat) (h : xs.length ≤ m) :
    takeLast xs m = xs := by
  unfold takeLast
  rw [Nat.sub_eq_zero_of_le h, List.drop_zero]

theorem takeLast_absorb (xs ys : List α) (m : Nat) :
    takeLast (takeLast xs m ++ ys) m = takeLast (xs ++ ys) m := by
  rcases Nat.le_total xs.length m with hle | hge
  · rw [takeLast_of_le xs m hle]
  · have hsplit : xs = xs.take (xs.length - m) ++ takeLast xs m :=
      (List.take_append_drop _ _).symm
    have hlen : m ≤ (takeLast xs m ++ ys).length := by
      unfold takeLast
      rw [List.length_append, List.length_drop]
      omega
    calc takeLast (takeLast xs m ++ ys) m
        = takeLast (xs.take (xs.length - m) ++ (takeLast xs m ++ ys)) m :=
          (takeLast_append_left _ _ m hlen).symm
      _ = takeLast (xs ++ ys) m := by rw [← List.append_assoc, ← hsplit]

theorem add_log_log_lines (s : DashboardState) (line : String)
    (hmax : s.max_log_lines = 500) :
    (s.add_log line).log_lines = takeLast (s.log_lines ++ [line]) 500 := by
  unfold DashboardState.add_log
  rw [hmax]
  by_cases hgt : (s.log_lines ++ [line]).length > 500
  · simp only [hgt, if_pos]
    unfold pySliceLast takeLast
    rw [if_neg (by omega)]
  · simp only [hgt, if_neg, if_false]
    rw [takeLast_of_le _ _ (by omega)]

theorem add_log_max (s : DashboardState) (line : String) :
    (s.add_log line).max_log_lines = s.max_log_lines := rfl

theorem foldl_add_log_log_lines (xs : List String) :
    ∀ s : DashboardState, s.max_log_lines = 500 → s.log_lines.length ≤ 500 →
    (xs.foldl DashboardState.add_log s).log_lines = takeLast (s.log_lines ++ xs) 500 := by
  induction xs with
  | nil =>
    intro s hmax hlen
    rw [List.foldl_nil, List.append_nil, takeLast_of_le _ _ hlen]
  | cons x xs ih =>
    intro s hmax hlen
    rw [List.foldl_cons]
    have hstep := add_log_log_lines s x hmax
    have hmax' : (s.add_log x).max_log_lines = 500 := by rw [add_log_max, hmax]
    have hlen' : (s.add_log x).log_lines.length ≤ 500 := by
      rw [hstep]
      unfold takeLast
      rw [List.length_drop]
      omega
    rw [ih _ hmax' hlen', hstep, takeLast_absorb]
    rw [List.append_assoc]
    rfl

/-- Claim C5: starting from an empty buffer with the default bound 500,
after any prefix (`take k`) of any sequence of `add_log` calls the
buffer holds exactly the most recent `min (number of appends) 500`
lines in append order (the oldest lines evicted first), and in
particular its length never exceeds 500 at any point of the
sequence. -/
theorem add_log_bounded (s : DashboardState) (lines : List String) (k : Nat)
    (hs : s.log_lines = []) (hmax : s.max_log_lines = 500) :
    ((lines.take k).foldl DashboardState.add_log s).log_lines
        = (lines.take k).drop ((lines.take k).length - 500)
      ∧ ((lines.take k).foldl DashboardState.add_log s).log_lines.length
        = min (lines.take k).length 500 := by
  have h := foldl_add_log_log_lines (lines.take k) s hmax (by rw [hs]; simp)
  rw [hs, List.nil_append] at h
  refine ⟨h, ?_⟩
  rw [h]
  unfold takeLast
  rw [List.length_drop]
  omega

/-- Concrete instance for `add_log_bounded`. -/
theorem add_log_bounded_witness :
    ((["w1", "w2", "w3"].take 2).foldl DashboardState.add_log state0).log_lines
        = (["w1", "w2", "w3"].take 2).drop ((["w1", "w2", "w3"].take 2).length - 500)
      ∧ ((["w1", "w2", "w3"].take 2).foldl DashboardState.add_log state0).log_lines.length
        = min (["w1", "w2", "w3"].take 2).length 500 :=
  add_log_bounded state0 ["w1", "w2", "w3"] 2 rfl rfl

/-- Embeds `DashboardState._notify`:
`self._send_event("state", json.dumps(self.to_dict()))`.  The JSON text
is carried as an opaque string `payload`; its exact characters play no
role in the framing and kind properties proved about the stream. -/
def DashboardState.notify (s : DashboardState) (payload : String) : DashboardState :=
  { s with hub := sendEvent s.hub ("state", payload) }

/-- The operations `dashboard.py` ever performs on the shared state and
its registry: `add_log` (which publishes a `("log", line)` message),
`_notify` (which publishes a `("state", json)` message), `subscribe`
and `unsubscribe`. -/
inductive DashOp
  | addLog (line : String)
  | notifyOp (payload : String)
  | subscribeOp
  | unsubscribeOp (i : Nat)
deriving Repr, DecidableEq

def applyOp (s : DashboardState) : DashOp → DashboardState
  | DashOp.addLog line => s.add_log line
  | DashOp.notifyOp payload => s.notify payload
  | DashOp.subscribeOp => { s with hub := (subscribe s.hub).2 }
  | DashOp.unsubscribeOp i => { s with hub := unsubscribe s.hub i }

def applyOps (s : DashboardState) (ops : List DashOp) : DashboardState :=
  ops.foldl applyOp s

/-- Every message sitting in any subscriber queue is a `state` or a
`log` message. -/
def QueuedKindsOk (h : Hub (String × String)) : Prop :=
  ∀ t ∈ h.subs, ∀ ev ∈ t.q, ev.1 = "state" ∨ ev.1 = "log"

theorem mem_sendEvent_subs (h : Hub ε) (e : ε) (t : Sub ε)
    (ht : t ∈ (sendEvent h e).subs) :
    ∃ s ∈ h.subs, t = s ∨ t = ⟨s.id, s.q ++ [e]⟩ := by
  have ht2 : t ∈ (sendEventLoop e h.subs).2.foldl removeById (sendEventLoop e h.subs).1 := ht
  have ht3 : t ∈ (sendEventLoop e h.subs).1 :=
    (foldl_removeById_sublist (sendEventLoop e h.subs).2 (sendEventLoop e h.subs).1).subset ht2
  rw [sendEventLoop_fst] at ht3
  rcases List.mem_map.1 ht3 with ⟨s, hs, hst⟩
  refine ⟨s, hs, ?_⟩
  by_cases hc : s.q.length < qMaxsize
  · right
    rw [← hst, if_pos hc]
  · left
    rw [← hst, if_neg hc]

theorem sendEvent_kinds (h : Hub (String × String)) (ev : String × String)
    (hok : QueuedKindsOk h) (hev : ev.1 = "state" ∨ ev.1 = "log") :
    QueuedKindsOk (sendEvent h ev) := by
  intro t ht e he
  rcases mem_sendEvent_subs h ev t ht with ⟨s, hs, heq | heq⟩
  · rw [heq] at he
    exact hok s hs e he
  · rw [heq] at he
    rcases List.mem_append.1 he with h1 | h1
    · exact hok s hs e h1
    · rw [List.mem_singleton.1 h1]
      exact hev

theorem applyOp_kinds (s : DashboardState) (op : DashOp)
    (hok : QueuedKindsOk s.hub) : QueuedKindsOk (applyOp s op).hub := by
  cases op with
  | addLog line =>
    exact sendEvent_kinds s.hub ("log", line) hok (Or.inr rfl)
  | notifyOp payload =>
    exact sendEvent_kinds s.hub ("state", payload) hok (Or.inl rfl)
  | subscribeOp =>
    intro t ht e he
    rcases List.mem_append.1 ht with h1 | h1
    · exact hok t h1 e he
    · rw [List.mem_singleton.1 h1] at he
      cases he
  | unsubscribeOp i =>
    intro t ht e he
    have ht2 : t ∈ s.hub.subs := by
      revert ht
      show t ∈ (unsubscribe s.hub i).subs → t ∈ s.hub.subs
      unfold unsubscribe
      by_cases hc : s.hub.subs.any (fun u => u.id == i)
      · rw [if_pos hc]
        exact fun hmem => (List.eraseP_sublist s.hub.subs).subset hmem
      · rw [if_neg hc]
        exact fun hmem => hmem
    exact hok t ht2 e he

theorem applyOps_kinds (ops : List DashOp) :
    ∀ s : DashboardState, QueuedKindsOk s.hub →
    QueuedKindsOk (applyOps s ops).hub := by
  induction ops with
  | nil => exact fun s h => h
  | cons op ops ih => exact fun s h => ih (applyOp s op) (applyOp_kinds s op h)

/-- One SSE frame as written by `_serve_sse` for a message:
`f"event: {event_type}\ndata: {data}\n\n"`; the initial frame is
`sseFrame "init" init_data`. -/
def sseFrame (event_type data : String) : String :=
  "event: " ++ event_type ++ "\ndata: " ++ data ++ "\n\n"

/-- The keepalive comment frame written on a 15-second idle timeout:
`self.wfile.write(b":keepalive\n\n")`. -/
def keepaliveFrame : String := ":keepalive\n\n"

/-- One iteration of the `_serve_sse` streaming loop: a message drained
from the queue within the 15s timeout is framed with `sseFrame`; a
`queue.Empty` timeout produces the keepalive comment. -/
def serveStep (item : Option (String × String)) : String :=
  match item with
  | some td => sseFrame td.1 td.2
  | Option.none => keepaliveFrame

/-- Claim C8 fails on the keepalive bytes: the code writes
`b":keepalive\n\n"` — no space after the colon — not
`": keepalive\n\n"`. -/
theorem keepalive_bytes_counterexample : keepaliveFrame ≠ ": keepalive\n\n" := by
  decide

/-- Claim C8 (amended): on the `/events` stream every delivered event
is framed as the exact bytes `event: <kind>\ndata: <json>\n\n` — the
initial frame with kind `init`, and every message queued in any state
reachable from the fresh global state with kind `state` or `log` — and
the idle keepalive is the comment bytes `:keepalive\n\n` (no space
after the colon, and no `event:`/`data:` field), written when the
queue has been idle for 15 seconds. -/
theorem sse_frames (ops : List DashOp) (t : Sub (String × String))
    (ev : String × String) (ht : t ∈ (applyOps state0 ops).hub.subs)
    (hev : ev ∈ t.q) :
    (ev.1 = "state" ∨ ev.1 = "log")
    ∧ serveStep (some ev) = "event: " ++ ev.1 ++ "\ndata: " ++ ev.2 ++ "\n\n"
    ∧ (∀ d, sseFrame "init" d = "event: init\ndata: " ++ d ++ "\n\n")
    ∧ serveStep Option.none = ":keepalive\n\n" := by
  refine ⟨?_, rfl, fun d => rfl, rfl⟩
  have h0 : QueuedKindsOk state0.hub := by
    intro u hu
    have : state0.hub.subs = ([] : List (Sub (String × String))) := rfl
    rw [this] at hu
    cases hu
  exact applyOps_kinds ops state0 h0 t ht ev hev

/-- Concrete instance for `sse_frames`: subscribe, then log one line. -/
theorem sse_frames_witness :
    ((("log", "window 1") : String × String).1 = "state"
        ∨ (("log", "window 1") : String × String).1 = "log")
    ∧ serveStep (some ("log", "window 1"))
        = "event: " ++ ("log", "window 1").1 ++ "\ndata: " ++ ("log", "window 1").2 ++ "\n\n"
    ∧ (∀ d, sseFrame "init" d = "event: init\ndata: " ++ d ++ "\n\n")
    ∧ serveStep Option.none = ":keepalive\n\n" :=
  sse_frames [DashOp.subscribeOp, DashOp.addLog "window 1"]
    ⟨0, [("log", "window 1")]⟩ ("log", "window 1") (by decide) (by decide)

/-- A Python `Exception` value — the class caught by
`except Exception`. -/
structure PyExc where
  msg : String
deriving Repr, DecidableEq

/-- Python `try: body / except Exception: handler`. -/
def tryExcept {α : Type} (body : Except PyExc α)
    (handler : PyExc → Except PyExc α) : Except PyExc α :=
  match body with
  | Except.ok a => Except.ok a
  | Except.error exc => handler exc

/-- Embeds `DashboardLogHandler.emit`: formats the record and feeds the
result to the dashboard state's `add_log`, with
`try ... except Exception: pass` around both steps.  The formatter and
`add_log` are arbitrary fallible collaborators (any `Exception` they
raise is an `Except.error`). -/
def emit {ρ : Type} (format : ρ → Except PyExc String)
    (add_log : String → Except PyExc Unit) (record : ρ) :
    Except PyExc Unit :=
  tryExcept ((format record).bind add_log) (fun _ => Except.ok ())

/-- Claim C10: `emit` never propagates an exception to its caller:
whatever error formatting or `add_log` raises is caught and discarded,
so the producer's logging call cannot fail through this handler. -/
theorem emit_never_raises {ρ : Type} (format : ρ → Except PyExc String)
    (add_log : String → Except PyExc Unit) (record : ρ) :
    emit format add_log record = Except.ok () := by
  unfold emit tryExcept
  cases (format record).bind add_log with
  | ok a => rfl
  | error exc => rfl

/-- Store-level view of the log buffer, making Python list-object
identity explicit: `mem a` is the contents of the list object with
identity `a`, `next` the next fresh identity.  The state holds
`logRef`, the identity of the list currently bound to
`self._log_lines`. -/
structure LogStore where
  mem : Nat → List String
  next : Nat

/-- Embeds `get_logs` at store level:
`return list(self._log_lines[-last_n:])` allocates a fresh list object
holding a copy of the slice and returns its identity together with the
new store. -/
def getLogsAlloc (logRef : Nat) (st : LogStore) (last_n : Nat) :
    Nat × LogStore :=
  (st.next,
   ⟨fun a => if a = st.next then pySliceLast (st.mem logRef) last_n else st.mem a,
    st.next + 1⟩)

/-- Embeds the buffer part of `add_log` at store level:
`self._log_lines.append(line)` mutates the current list object in
place; on overflow `self._log_lines = self._log_lines[-max:]` rebinds
the attribute to a freshly allocated sliced copy.  Returns the new
binding of `self._log_lines` and the new store. -/
def addLogStore (logRef : Nat) (st : LogStore) (maxL : Nat)
    (line : String) : Nat × LogStore :=
  let appended := st.mem logRef ++ [line]
  let st1 : LogStore := ⟨fun a => if a = logRef then appended else st.mem a, st.next⟩
  if appended.length > maxL then
    (st1.next,
     ⟨fun a => if a = st1.next then pySliceLast appended maxL else st1.mem a,
      st1.next + 1⟩)
  else (logRef, st1)

/-- Running a sequence of `add_log` calls at store level. -/
def runAddLogs (maxL : Nat) (p : Nat × LogStore) (lines : List String) :
    Nat × LogStore :=
  lines.foldl (fun q line => addLogStore q.1 q.2 maxL line) p

theorem addLogStore_pres (a logRef : Nat) (st : LogStore) (maxL : Nat)
    (line : String) (ha : a < st.next) (href : logRef ≠ a) :
    (addLogStore logRef st maxL line).2.mem a = st.mem a
    ∧ a < (addLogStore logRef st maxL line).2.next
    ∧ (addLogStore logRef st maxL line).1 ≠ a := by
  unfold addLogStore
  by_cases hc : (st.mem logRef ++ [line]).length > maxL
  · simp only [hc, if_pos]
    refine ⟨?_, by simpa using Nat.lt_succ_of_lt ha, by omega⟩
    show (if a = st.next then pySliceLast (st.mem logRef ++ [line]) maxL
          else if a = logRef then st.mem logRef ++ [line] else st.mem a) = st.mem a
    rw [if_neg (by omega), if_neg (fun h => href h.symm)]
  · simp only [hc, if_neg, if_false]
    refine ⟨?_, ha, href⟩
    show (if a = logRef then st.mem logRef ++ [line] else st.mem a) = st.mem a
    rw [if_neg (fun h => href h.symm)]

theorem runAddLogs_pres (maxL a : Nat) (lines : List String) :
    ∀ (logRef : Nat) (st : LogStore), a < st.next → logRef ≠ a →
    (runAddLogs maxL (logRef, st) lines).2.mem a = st.mem a := by
  induction lines with
  | nil => intro logRef st ha href; rfl
  | cons line lines ih =>
    intro logRef st ha href
    have h := addLogStore_pres a logRef st maxL line ha href
    show (runAddLogs maxL (addLogStore logRef st maxL line) lines).2.mem a = st.mem a
    rw [ih (addLogStore logRef st maxL line).1 (addLogStore logRef st maxL line).2
      h.2.1 h.2.2]
    exact h.1

/-- Claim C9: `get_logs` returns a fresh list independent of the
internal buffer: the returned object is distinct from the buffer
object, taking the copy leaves the buffer unchanged, mutating the
returned list in place (overwriting its cell with any contents) does
not change the buffer, and any subsequent sequence of `add_log` calls
leaves the previously returned list unchanged. -/
theorem get_logs_fresh (logRef : Nat) (st : LogStore) (n a : Nat)
    (st' : LogStore) (heq : getLogsAlloc logRef st n = (a, st'))
    (hval : logRef < st.next) (mutated lines : List String) (maxL : Nat) :
    a ≠ logRef
    ∧ st'.mem logRef = st.mem logRef
    ∧ (LogStore.mk (fun x => if x = a then mutated else st'.mem x) st'.next).mem logRef
        = st.mem logRef
    ∧ (runAddLogs maxL (logRef, st') lines).2.mem a = st'.mem a := by
  have ha : a = st.next := by
    have := congrArg Prod.fst heq
    exact this.symm
  have hst : st' = (getLogsAlloc logRef st n).2 := by
    have := congrArg Prod.snd heq
    exact this.symm
  subst ha
  subst hst
  have hbuf : (getLogsAlloc logRef st n).2.mem logRef = st.mem logRef := by
    show (if logRef = st.next then pySliceLast (st.mem logRef) n else st.mem logRef)
        = st.mem logRef
    rw [if_neg (by omega)]
  refine ⟨by omega, hbuf, ?_, ?_⟩
  · show (if logRef = st.next then mutated
          else (getLogsAlloc logRef st n).2.mem logRef) = st.mem logRef
    rw [if_neg (by omega)]
    exact hbuf
  · exact runAddLogs_pres maxL st.next lines logRef (getLogsAlloc logRef st n).2
      (by show st.next < st.next + 1; omega) (by omega)

/-- A concrete store for the `get_logs_fresh` witness: one buffer
object (identity 0) holding one line. -/
def stW : LogStore := ⟨fun x => if x = 0 then ["l1"] else [], 1⟩

/-- Concrete instance for `get_logs_fresh`. -/
theorem get_logs_fresh_witness :
    (getLogsAlloc 0 stW 1).1 ≠ 0
    ∧ (getLogsAlloc 0 stW 1).2.mem 0 = stW.mem 0
    ∧ (LogStore.mk
        (fun x => if x = (getLogsAlloc 0 stW 1).1 then ["hacked"]
                  else (getLogsAlloc 0 stW 1).2.mem x)
        (getLogsAlloc 0 stW 1).2.next).mem 0 = stW.mem 0
    ∧ (runAddLogs 500 (0, (getLogsAlloc 0 stW 1).2) ["x", "y"]).2.mem
        (getLogsAlloc 0 stW 1).1 = (getLogsAlloc 0 stW 1).2.mem (getLogsAlloc 0 stW 1).1 :=
  get_logs_fresh 0 stW 1 (getLogsAlloc 0 stW 1).1 (getLogsAlloc 0 stW 1).2 rfl
    (by decide) ["hacked"] ["x", "y"] 500

/-- One Python attribute table (an object's `__dict__`): name → value,
insertion-ordered. -/
abbrev Attrs := List (String × Val)

/-- Lookup of an attribute binding. -/
def lookupAttr (a : Attrs) (k : String) : Option Val :=
  match a with
  | [] => Option.none
  | p :: rest => if p.1 = k then some p.2 else lookupAttr rest k

/-- The value read for an attribute; a name with no binding reads as
`pnone` (every name we quantify over below is bound on the real
object, so the default is never observed in the theorems). -/
def getAttr (a : Attrs) (k : String) : Val :=
  (lookupAttr a k).getD Val.pnone

/-- Python `setattr(obj, k, v)`: rebinds `k` when a binding exists,
else appends a new binding; it never fails, whatever the name — there
is no field validation. -/
def setAttr (a : Attrs) (k : String) (v : Val) : Attrs :=
  if (lookupAttr a k).isSome then
    a.map (fun p => if p.1 = k then (k, v) else p)
  else a ++ [(k, v)]

/-- Modelled from the spec: the producer-facing entry point
`update(fields)` of spec §4.1 is not part of `dashboard.py` — the bot
that calls it is an external collaborator — so the status record is
modelled the way Python stores dataclass fields, as an attribute
table, and `update` merges the given fields into it (`setattr` per
pair) and then triggers `_notify`, which publishes a `State` event
carrying the new full snapshot.  The event payload is the `to_dict`
table itself; its JSON serialisation plays no role here. -/
structure AttrState where
  attrs : Attrs
  hub : Hub (String × Attrs)

/-- Merging a field mapping into an attribute table, first pair
first. -/
def mergeFields (a : Attrs) (fields : List (String × Val)) : Attrs :=
  fields.foldl (fun b kv => setAttr b kv.1 kv.2) a

/-- The fixed key list of the dict literal in `to_dict`. -/
def snapshotKeys : List String :=
  ["status", "current_market", "market_asset", "market_duration",
   "market_ends", "markets_found", "windows_scanned", "up_best_ask",
   "up_best_bid", "down_best_ask", "down_best_bid", "combined_ask",
   "up_depth", "down_depth", "fee_bps", "bankroll", "deployed",
   "available", "realized_pnl", "daily_spent", "exchange_balance",
   "opportunities_seen", "opportunities_traded", "last_plan",
   "fill_rate", "api_stats", "positions", "config"]

/-- Attribute-level `to_dict`: the snapshot is the fixed key list read
off the current attribute table. -/
def toDictA (a : Attrs) : Attrs :=
  snapshotKeys.map (fun k => (k, getAttr a k))

/-- Attribute-level `_notify`. -/
def notifyA (s : AttrState) : AttrState :=
  ⟨s.attrs, sendEvent s.hub ("state", toDictA s.attrs)⟩

/-- Modelled from the spec: `update(fields)` merges and notifies. -/
def update (s : AttrState) (fields : List (String × Val)) : AttrState :=
  notifyA ⟨mergeFields s.attrs fields, s.hub⟩

theorem lookupAttr_map_replace (a : Attrs) (k k' : String) (v : Val)
    (hne : k' ≠ k) :
    lookupAttr (a.map (fun p => if p.1 = k then (k, v) else p)) k'
      = lookupAttr a k' := by
  induction a with
  | nil => rfl
  | cons p rest ih =>
    by_cases hp : p.1 = k
    · show lookupAttr ((if p.1 = k then (k, v) else p) :: _) k' = _
      rw [if_pos hp]
      show (if k = k' then some v else _) = _
      rw [if_neg (fun h => hne h.symm)]
      show _ = (if p.1 = k' then some p.2 else lookupAttr rest k')
      rw [if_neg (fun h => hne (h.symm.trans hp))]
      exact ih
    · show lookupAttr ((if p.1 = k then (k, v) else p) :: _) k' = _
      rw [if_neg hp]
      show (if p.1 = k' then some p.2 else _) = (if p.1 = k' then some p.2 else _)
      by_cases hp' : p.1 = k'
      · rw [if_pos hp', if_pos hp']
      · rw [if_neg hp', if_neg hp']
        exact ih

theorem lookupAttr_map_replace_self (a : Attrs) (k : String) (v : Val)
    (hsome : (lookupAttr a k).isSome) :
    lookupAttr (a.map (fun p => if p.1 = k then (k, v) else p)) k = some v := by
  induction a with
  | nil => cases hsome
  | cons p rest ih =>
    by_cases hp : p.1 = k
    · show lookupAttr ((if p.1 = k then (k, v) else p) :: _) k = _
      rw [if_pos hp]
      show (if k = k then some v else _) = _
      rw [if_pos rfl]
    · show lookupAttr ((if p.1 = k then (k, v) else p) :: _) k = _
      rw [if_neg hp]
      show (if p.1 = k then some p.2 else _) = _
      rw [if_neg hp]
      apply ih
      have : lookupAttr (p :: rest) k = lookupAttr rest k := by
        show (if p.1 = k then some p.2 else lookupAttr rest k) = _
        rw [if_neg hp]
      rw [this] at hsome
      exact hsome

theorem lookupAttr_append (a b : Attrs) (k : String) :
    lookupAttr (a ++ b) k
      = match lookupAttr a k with
        | some v => some v
        | Option.none => lookupAttr b k := by
  induction a with
  | nil => rfl
  | cons p rest ih =>
    by_cases hp : p.1 = k
    · show (if p.1 = k then some p.2 else _) = _
      rw [if_pos hp]
      show some p.2 = (match if p.1 = k then some p.2 else lookupAttr rest k with
        | some v => some v
        | Option.none => lookupAttr b k)
      rw [if_pos hp]
    · show (if p.1 = k then some p.2 else lookupAttr (rest ++ b) k) = _
      rw [if_neg hp]
      show _ = (match if p.1 = k then some p.2 else lookupAttr rest k with
        | some v => some v
        | Option.none => lookupAttr b k)
      rw [if_neg hp]
      exact ih

theorem getAttr_setAttr_self (a : Attrs) (k : String) (v : Val) :
    getAttr (setAttr a k v) k = v := by
  unfold getAttr setAttr
  by_cases hsome : (lookupAttr a k).isSome
  · rw [if_pos hsome, lookupAttr_map_replace_self a k v hsome]
    rfl
  · rw [if_neg hsome, lookupAttr_append]
    have hnone : lookupAttr a k = Option.none :=
      Option.not_isSome_iff_eq_none.1 hsome
    rw [hnone]
    show (lookupAttr [(k, v)] k).getD Val.pnone = v
    show ((if k = k then some v else Option.none).getD Val.pnone) = v
    rw [if_pos rfl]
    rfl

theorem getAttr_setAttr_ne (a : Attrs) (k k' : String) (v : Val)
    (hne : k' ≠ k) :
    getAttr (setAttr a k v) k' = getAttr a k' := by
  unfold getAttr setAttr
  by_cases hsome : (lookupAttr a k).isSome
  · rw [if_pos hsome, lookupAttr_map_replace a k k' v hne]
  · rw [if_neg hsome, lookupAttr_append]
    cases hl : lookupAttr a k' with
    | none =>
      show (lookupAttr [(k, v)] k').getD Val.pnone = _
      show ((if k = k' then some v else Option.none).getD Val.pnone) = _
      rw [if_neg (fun h => hne h.symm)]
    | some w => rfl

theorem getAttr_mergeFields_not_mem (fields : List (String × Val)) :
    ∀ (a : Attrs) (k : String), k ∉ fields.map Prod.fst →
    getAttr (mergeFields a fields) k = getAttr a k := by
  induction fields with
  | nil => intro a k _; rfl
  | cons kv rest ih =>
    intro a k hk
    rw [List.map_cons, List.mem_cons] at hk
    push_neg at hk
    show getAttr (mergeFields (setAttr a kv.1 kv.2) rest) k = _
    rw [ih (setAttr a kv.1 kv.2) k hk.2]
    exact getAttr_setAttr_ne a kv.1 k kv.2 hk.1

theorem getAttr_mergeFields_mem (fields : List (String × Val)) :
    ∀ (a : Attrs) (kv : String × Val), kv ∈ fields →
    (fields.map Prod.fst).Nodup →
    getAttr (mergeFields a fields) kv.1 = kv.2 := by
  induction fields with
  | nil => intro a kv h; cases h
  | cons kw rest ih =>
    intro a kv hkv hnd
    rw [List.map_cons, List.nodup_cons] at hnd
    rcases List.mem_cons.1 hkv with heq | hmem
    · subst heq
      show getAttr (mergeFields (setAttr a kv.1 kv.2) rest) kv.1 = kv.2
      rw [getAttr_mergeFields_not_mem rest (setAttr a kv.1 kv.2) kv.1 hnd.1]
      exact getAttr_setAttr_self a kv.1 kv.2
    · exact ih (setAttr a kw.1 kw.2) kv hmem hnd.2

/-- Claim C1: the producer-facing `update(fields)` merges every given
binding into the status record — unknown field names included, without
error or validation — leaves every other attribute unchanged, and as a
side effect triggers a `State` event carrying the new full snapshot,
enqueued by `_send_event` to every subscriber with queue room.  (That
`update` and `append_log` are the only two producer-facing mutation
entry points is an interface-level enumeration of the spec, not a
property of a single function.) -/
theorem update_spec (s : AttrState) (fields : List (String × Val))
    (hkeys : (fields.map Prod.fst).Nodup) (hnd : (ids s.hub).Nodup) :
    (∀ kv ∈ fields, getAttr (update s fields).attrs kv.1 = kv.2)
    ∧ (∀ k, k ∉ fields.map Prod.fst →
        getAttr (update s fields).attrs k = getAttr s.attrs k)
    ∧ (∀ t ∈ s.hub.subs, t.q.length < qMaxsize →
        (⟨t.id, t.q ++ [("state", toDictA (mergeFields s.attrs fields))]⟩
            : Sub (String × Attrs))
          ∈ (update s fields).hub.subs) := by
  refine ⟨?_, ?_, ?_⟩
  · intro kv hkv
    exact getAttr_mergeFields_mem fields s.attrs kv hkv hkeys
  · intro k hk
    exact getAttr_mergeFields_not_mem fields s.attrs k hk
  · intro t ht hroom
    have hsubs := sendEvent_subs s.hub
      ("state", toDictA (mergeFields s.attrs fields)) hnd
    show (⟨t.id, t.q ++ [("state", toDictA (mergeFields s.attrs fields))]⟩
        : Sub (String × Attrs))
      ∈ (sendEvent s.hub ("state", toDictA (mergeFields s.attrs fields))).subs
    rw [hsubs]
    exact List.mem_filterMap.2 ⟨t, ht, by simp [deliver, hroom]⟩

/-- Concrete instance for `update_spec`: one known and one unknown
field, one registered subscriber. -/
theorem update_spec_witness :
    (∀ kv ∈ [("status", Val.pstr "scanning"), ("frobnicate", Val.pint 7)],
      getAttr (update ⟨[("status", Val.pstr "starting")], ⟨[⟨0, []⟩], 1⟩⟩
        [("status", Val.pstr "scanning"), ("frobnicate", Val.pint 7)]).attrs kv.1 = kv.2)
    ∧ (∀ k, k ∉ [("status", Val.pstr "scanning"), ("frobnicate", Val.pint 7)].map Prod.fst →
        getAttr (update ⟨[("status", Val.pstr "starting")], ⟨[⟨0, []⟩], 1⟩⟩
          [("status", Val.pstr "scanning"), ("frobnicate", Val.pint 7)]).attrs k
          = getAttr [("status", Val.pstr "starting")] k)
    ∧ (∀ t ∈ (⟨[("status", Val.pstr "starting")], ⟨[⟨0, []⟩], 1⟩⟩ : AttrState).hub.subs,
        t.q.length < qMaxsize →
        (⟨t.id, t.q ++ [("state", toDictA (mergeFields [("status", Val.pstr "starting")]
            [("status", Val.pstr "scanning"), ("frobnicate", Val.pint 7)]))]⟩
            : Sub (String × Attrs))
          ∈ (update ⟨[("status", Val.pstr "starting")], ⟨[⟨0, []⟩], 1⟩⟩
              [("status", Val.pstr "scanning"), ("frobnicate", Val.pint 7)]).hub.subs) :=
  update_spec ⟨[("status", Val.pstr "starting")], ⟨[⟨0, []⟩], 1⟩⟩
    [("status", Val.pstr "scanning"), ("frobnicate", Val.pint 7)]
    (by decide) (by decide)


/-- Locate the subscriber queue with identity `i` in the registry. -/
def findSub (h : Hub ε) (i : Nat) : Option (Sub ε) :=
  h.subs.find? (fun s => s.id == i)

/-- The registry after the subscriber with identity `i` has taken the
head off its queue, leaving `rest` queued (every other queue object is
untouched). -/
def dropHead (h : Hub ε) (i : Nat) (rest : List ε) : Hub ε :=
  ⟨h.subs.map (fun t => if t.id == i then ⟨t.id, rest⟩ else t), h.nextId⟩

/-- Embeds `q.get` in the `_serve_sse` loop for the subscriber with
identity `i`: the oldest queued message is removed and returned; an
empty queue yields nothing (the 15-second timeout path). -/
def popFront (h : Hub ε) (i : Nat) : Hub ε × Option ε :=
  match findSub h i with
  | some s =>
    match s.q with
    | [] => (h, Option.none)
    | e :: rest => (dropHead h i rest, some e)
  | Option.none => (h, Option.none)

/-- One step of the interleaving between the producer (`_send_event`,
`pub`) and the observed subscriber's handler taking a message off its
own queue (`drain`). -/
inductive HubOp (ε : Type)
  | pub (e : ε)
  | drain
deriving Repr, DecidableEq

/-- Run a sequence of publishes and drains, recording the messages the
observed subscriber `i` has taken off its queue (oldest first). -/
def runOps (i : Nat) : Hub ε × List ε → List (HubOp ε) → Hub ε × List ε
  | st, [] => st
  | (h, dr), HubOp.pub e :: ops => runOps i (sendEvent h e, dr) ops
  | (h, dr), HubOp.drain :: ops =>
    let p := popFront h i
    runOps i (p.1, dr ++ p.2.toList) ops

/-- Holds when along the whole run every `pub` finds the observed
subscriber's queue strictly below capacity, i.e. `put_nowait` never
raises `queue.Full` for it. -/
def neverFull (i : Nat) : Hub ε × List ε → List (HubOp ε) → Bool
  | _, [] => true
  | (h, dr), HubOp.pub e :: ops =>
    (match findSub h i with
     | some s => decide (s.q.length < qMaxsize)
     | Option.none => false)
    && neverFull i (sendEvent h e, dr) ops
  | (h, dr), HubOp.drain :: ops =>
    let p := popFront h i
    neverFull i (p.1, dr ++ p.2.toList) ops

/-- The messages published during a run, in publish order. -/
def pubs : List (HubOp ε) → List ε
  | [] => []
  | HubOp.pub e :: ops => e :: pubs ops
  | HubOp.drain :: ops => pubs ops

theorem find?_of_mem_nodup (l : List (Sub ε)) (t : Sub ε) (i : Nat)
    (hnd : (l.map Sub.id).Nodup) (ht : t ∈ l) (hid : t.id = i) :
    l.find? (fun s => s.id == i) = some t := by
  induction l with
  | nil => cases ht
  | cons s rest ih =>
    rw [List.map_cons, List.nodup_cons] at hnd
    by_cases hs : s.id = i
    · rw [List.find?_cons_of_pos _ (by simp [hs])]
      rcases List.mem_cons.1 ht with heq | hmem
      · rw [heq]
      · exfalso
        apply hnd.1
        have hts : t.id = s.id := by rw [hid, hs]
        rw [← hts]
        exact List.mem_map_of_mem Sub.id hmem
    · rw [List.find?_cons_of_neg _ (by simp [hs])]
      rcases List.mem_cons.1 ht with heq | hmem
      · exact absurd (heq ▸ hid) hs
      · exact ih hnd.2 hmem

theorem find?_map_id_preserving (l : List (Sub ε)) (i : Nat)
    (g : Sub ε → Sub ε) (hg : ∀ s, (g s).id = s.id) :
    (l.map g).find? (fun s => s.id == i) = (l.find? (fun s => s.id == i)).map g := by
  induction l with
  | nil => rfl
  | cons s rest ih =>
    by_cases hs : s.id = i
    · rw [List.map_cons, List.find?_cons_of_pos _ (by simp [hg, hs]),
        List.find?_cons_of_pos _ (by simp [hs])]
      rfl
    · rw [List.map_cons, List.find?_cons_of_neg _ (by simp [hg, hs]),
        List.find?_cons_of_neg _ (by simp [hs])]
      exact ih

theorem findSub_id (h : Hub ε) (i : Nat) (s : Sub ε)
    (hf : findSub h i = some s) : s.id = i := by
  have h2 := List.find?_some hf
  simpa using h2

theorem findSub_sendEvent (h : Hub ε) (e : ε) (i : Nat) (s : Sub ε)
    (hnd : (ids h).Nodup) (hfind : findSub h i = some s)
    (hroom : s.q.length < qMaxsize) :
    findSub (sendEvent h e) i = some ⟨s.id, s.q ++ [e]⟩ := by
  have hmem : s ∈ h.subs := List.mem_of_find?_eq_some hfind
  have hid : s.id = i := findSub_id h i s hfind
  have hnd2 : (ids (sendEvent h e)).Nodup :=
    (ids_sendEvent_sublist h e).nodup hnd
  have hmem2 : (⟨s.id, s.q ++ [e]⟩ : Sub ε) ∈ (sendEvent h e).subs := by
    rw [sendEvent_subs h e hnd]
    exact List.mem_filterMap.2 ⟨s, hmem, by simp [deliver, hroom]⟩
  exact find?_of_mem_nodup (sendEvent h e).subs ⟨s.id, s.q ++ [e]⟩ i hnd2 hmem2 hid

theorem popFront_eq_empty (h : Hub ε) (i j : Nat)
    (hf : findSub h i = some ⟨j, []⟩) : popFront h i = (h, Option.none) := by
  unfold popFront
  rw [hf]

theorem popFront_eq_cons (h : Hub ε) (i j : Nat) (e : ε) (rest : List ε)
    (hf : findSub h i = some ⟨j, e :: rest⟩) :
    popFront h i = (dropHead h i rest, some e) := by
  unfold popFront
  rw [hf]

theorem ids_dropHead (h : Hub ε) (i : Nat) (rest : List ε) :
    ids (dropHead h i rest) = ids h := by
  show (h.subs.map (fun t => if t.id == i then ⟨t.id, rest⟩ else t)).map Sub.id = ids h
  rw [List.map_map]
  apply List.map_congr_left
  intro t _
  by_cases hti : t.id = i <;> simp [hti]

theorem findSub_dropHead (h : Hub ε) (i j : Nat) (q rest : List ε)
    (hfind : findSub h i = some ⟨j, q⟩) :
    findSub (dropHead h i rest) i = some ⟨j, rest⟩ := by
  have hid : j = i := findSub_id h i ⟨j, q⟩ hfind
  show (h.subs.map (fun t => if t.id == i then ⟨t.id, rest⟩ else t)).find?
      (fun t => t.id == i) = some ⟨j, rest⟩
  rw [find?_map_id_preserving h.subs i _
    (fun t => by by_cases hti : t.id = i <;> simp [hti])]
  unfold findSub at hfind
  rw [hfind]
  show some (if (⟨j, q⟩ : Sub ε).id == i then (⟨(⟨j, q⟩ : Sub ε).id, rest⟩ : Sub ε)
      else ⟨j, q⟩) = some ⟨j, rest⟩
  rw [if_pos (by simp [hid])]

theorem runOps_spec (i : Nat) (ops : List (HubOp ε)) :
    ∀ (h : Hub ε) (dr : List ε) (s : Sub ε),
    (ids h).Nodup → findSub h i = some s →
    neverFull i (h, dr) ops = true →
    ∃ s', findSub (runOps i (h, dr) ops).1 i = some s'
      ∧ (runOps i (h, dr) ops).2 ++ s'.q = dr ++ s.q ++ pubs ops := by
  induction ops with
  | nil =>
    intro h dr s hnd hfind _
    exact ⟨s, hfind, by simp [runOps, pubs]⟩
  | cons op ops ih =>
    intro h dr s hnd hfind hnf
    cases op with
    | pub e =>
      have hnf2 : (match findSub h i with
          | some u => decide (u.q.length < qMaxsize)
          | Option.none => false) = true
          ∧ neverFull i (sendEvent h e, dr) ops = true := by
        simpa [neverFull] using hnf
      have hroom : s.q.length < qMaxsize := by
        have h2 := hnf2.1
        rw [hfind] at h2
        exact of_decide_eq_true h2
      have hnd2 : (ids (sendEvent h e)).Nodup :=
        (ids_sendEvent_sublist h e).nodup hnd
      have hfind2 := findSub_sendEvent h e i s hnd hfind hroom
      rcases ih (sendEvent h e) dr ⟨s.id, s.q ++ [e]⟩ hnd2 hfind2 hnf2.2
        with ⟨s', hf, hq⟩
      refine ⟨s', hf, ?_⟩
      show (runOps i (sendEvent h e, dr) ops).2 ++ s'.q
          = dr ++ s.q ++ pubs (HubOp.pub e :: ops)
      rw [hq]
      show dr ++ (s.q ++ [e]) ++ pubs ops = dr ++ s.q ++ (e :: pubs ops)
      simp
    | drain =>
      obtain ⟨j, q⟩ := s
      cases q with
      | nil =>
        have hpop := popFront_eq_empty h i j hfind
        have hrun : runOps i (h, dr) (HubOp.drain :: ops)
            = runOps i (h, dr) ops := by
          show runOps i ((popFront h i).1, dr ++ (popFront h i).2.toList) ops
              = runOps i (h, dr) ops
          rw [hpop]
          simp
        have hnf2 : neverFull i (h, dr) ops = true := by
          have hstep : neverFull i (h, dr) (HubOp.drain :: ops)
              = neverFull i ((popFront h i).1, dr ++ (popFront h i).2.toList) ops := rfl
          rw [hstep, hpop] at hnf
          simpa using hnf
        rcases ih h dr ⟨j, []⟩ hnd hfind hnf2 with ⟨s', hf, hq⟩
        refine ⟨s', ?_, ?_⟩
        · rw [hrun]
          exact hf
        · rw [hrun, hq]
          show dr ++ (⟨j, ([] : List ε)⟩ : Sub ε).q ++ pubs ops
              = dr ++ (⟨j, ([] : List ε)⟩ : Sub ε).q ++ pubs (HubOp.drain :: ops)
          rfl
      | cons e rest =>
        have hpop := popFront_eq_cons h i j e rest hfind
        have hfind2 : findSub (dropHead h i rest) i = some ⟨j, rest⟩ :=
          findSub_dropHead h i j (e :: rest) rest hfind
        have hnd2 : (ids (dropHead h i rest)).Nodup := by
          rw [ids_dropHead]
          exact hnd
        have hrun : runOps i (h, dr) (HubOp.drain :: ops)
            = runOps i (dropHead h i rest, dr ++ [e]) ops := by
          show runOps i ((popFront h i).1, dr ++ (popFront h i).2.toList) ops
              = runOps i (dropHead h i rest, dr ++ [e]) ops
          rw [hpop]
          rfl
        have hnf2 : neverFull i (dropHead h i rest, dr ++ [e]) ops = true := by
          have hstep : neverFull i (h, dr) (HubOp.drain :: ops)
              = neverFull i ((popFront h i).1, dr ++ (popFront h i).2.toList) ops := rfl
          rw [hstep, hpop] at hnf
          exact hnf
        rcases ih (dropHead h i rest) (dr ++ [e]) ⟨j, rest⟩ hnd2 hfind2 hnf2
          with ⟨s', hf, hq⟩
        refine ⟨s', ?_, ?_⟩
        · rw [hrun]
          exact hf
        · rw [hrun, hq]
          show (dr ++ [e]) ++ rest ++ pubs ops
              = dr ++ (e :: rest) ++ pubs ops
          simp

/-- Claim C6: a subscriber freshly obtained from `subscribe`, across
any subsequent interleaving of publishes and drains of its own queue
during which its queue is never found full, stays registered, and the
messages it has drained followed by what is still queued are exactly
the messages published after its subscription, in publish order — no
loss, no duplication, no reordering, and nothing from before the
subscription. -/
theorem subscriber_receives_all (h : Hub ε) (ops : List (HubOp ε))
    (hwf : ∀ s ∈ h.subs, s.id < h.nextId) (hnd : (ids h).Nodup)
    (hnf : neverFull h.nextId ((subscribe h).2, ([] : List ε)) ops = true) :
    ∃ s', findSub (runOps h.nextId ((subscribe h).2, ([] : List ε)) ops).1 h.nextId
        = some s'
      ∧ (runOps h.nextId ((subscribe h).2, ([] : List ε)) ops).2 ++ s'.q = pubs ops := by
  have hnd1 : (ids (subscribe h).2).Nodup := by
    show ((h.subs ++ [(⟨h.nextId, []⟩ : Sub ε)]).map Sub.id).Nodup
    rw [List.map_append, List.nodup_append]
    refine ⟨hnd, List.nodup_singleton _, ?_⟩
    intro x hx hx2
    rcases List.mem_map.1 hx with ⟨t, ht, hteq⟩
    have hx1 : x = h.nextId := by
      have hsing : ([(⟨h.nextId, []⟩ : Sub ε)].map Sub.id) = [h.nextId] := rfl
      rw [hsing] at hx2
      exact List.mem_singleton.1 hx2
    have hlt := hwf t ht
    omega
  have hfind1 : findSub (subscribe h).2 h.nextId = some ⟨h.nextId, []⟩ := by
    refine find?_of_mem_nodup ((subscribe h).2).subs (⟨h.nextId, []⟩ : Sub ε) h.nextId hnd1 ?_ rfl
    show (⟨h.nextId, []⟩ : Sub ε) ∈ h.subs ++ [(⟨h.nextId, []⟩ : Sub ε)]
    exact List.mem_append_right _ (List.mem_singleton.2 rfl)
  rcases runOps_spec h.nextId ops (subscribe h).2 [] ⟨h.nextId, []⟩ hnd1 hfind1 hnf
    with ⟨s', hf, hq⟩
  exact ⟨s', hf, by simpa using hq⟩

/-- Concrete instance for `subscriber_receives_all`: subscribe to an
empty hub, publish, drain, publish again. -/
theorem subscriber_receives_all_witness :
    ∃ s', findSub (runOps (Hub.mk ([] : List (Sub String)) 0).nextId
          ((subscribe (Hub.mk ([] : List (Sub String)) 0)).2, ([] : List String))
          [HubOp.pub "e1", HubOp.drain, HubOp.pub "e2"]).1
          (Hub.mk ([] : List (Sub String)) 0).nextId = some s'
      ∧ (runOps (Hub.mk ([] : List (Sub String)) 0).nextId
          ((subscribe (Hub.mk ([] : List (Sub String)) 0)).2, ([] : List String))
          [HubOp.pub "e1", HubOp.drain, HubOp.pub "e2"]).2 ++ s'.q
          = pubs [HubOp.pub "e1", HubOp.drain, HubOp.pub "e2"] :=
  subscriber_receives_all (Hub.mk ([] : List (Sub String)) 0)
    [HubOp.pub "e1", HubOp.drain, HubOp.pub "e2"]
    (by intro s hs; cases hs) (by decide) (by decide)

end Dashboard
